import Mathlib

/-!
Verification of the header (first) pass of the prototool formatter
(`internal/x/format/first_pass_visitor.go`) and of the hierarchical
configuration resolver (`internal/x/settings`, config provider).

The visitor's own logic (`Do`, the `Visit*` methods, `PImports`,
`isProbablyCustomOption`) is embedded directly from the Go source.  The
base renderer primitives it calls (`P`, `PComment`, `PWithInlineComment`,
`POptions`, `AddFailure`) and the well-known-types registry live outside
the provided sources; they are modelled from the specification (§4.1 Base
Renderer, §2 registry) and the registry is an injected membership
predicate on filenames, as the spec prescribes.
-/

namespace Prototool

/-- Source position of a declaration (`proto.Position`): line and column. -/
structure Position where
  line : Nat
  column : Nat
deriving DecidableEq, Repr

/-- A comment node (`proto.Comment`): its position and its raw text lines. -/
structure CommentDecl where
  position : Position
  lines : List String
deriving DecidableEq, Repr

/-- A `proto.Syntax` declaration: position, optional leading comment, optional
inline comment, and the syntax value string (e.g. `proto3`). -/
structure SyntaxDecl where
  position : Position
  comment : Option CommentDecl
  inlineComment : Option CommentDecl
  value : String
deriving DecidableEq, Repr

/-- A `proto.Package` declaration: position, comments, package name. -/
structure PackageDecl where
  position : Position
  comment : Option CommentDecl
  inlineComment : Option CommentDecl
  name : String
deriving DecidableEq, Repr

/-- A `proto.Option` declaration: position, comments, option name and value. -/
structure OptionDecl where
  position : Position
  comment : Option CommentDecl
  inlineComment : Option CommentDecl
  name : String
  constant : String
deriving DecidableEq, Repr

/-- A `proto.Import` declaration: position, comments, imported filename. -/
structure ImportDecl where
  position : Position
  comment : Option CommentDecl
  inlineComment : Option CommentDecl
  filename : String
deriving DecidableEq, Repr

/-- The declaration kinds whose `Visit*` handler in the first pass only sets
`haveHitNonComment` (message, service, fields, enum, oneof, reserved, rpc,
map field, group, extensions). -/
inductive OtherKind where
  | message
  | service
  | normalField
  | enumField
  | enum
  | oneof
  | oneofField
  | reserved
  | rpc
  | mapField
  | group
  | extensions
deriving DecidableEq, Repr

/-- One top-level declaration of a schema document, as dispatched to the
visitor (the tagged-union form of the per-kind dispatch contract). -/
inductive Decl where
  | syntaxDecl (e : SyntaxDecl)
  | packageDecl (e : PackageDecl)
  | optionDecl (e : OptionDecl)
  | importDecl (e : ImportDecl)
  | commentDecl (e : CommentDecl)
  | otherDecl (kind : OtherKind) (position : Position)
deriving DecidableEq, Repr

/-- A diagnostic (`text.Failure` as produced by `AddFailure`): the position it
points at and its message. -/
structure Failure where
  line : Nat
  column : Nat
  message : String
deriving DecidableEq, Repr

/-- The formatting configuration the pass receives (the already-resolved
`settings.Config.Format`): the literal indent string. -/
structure Config where
  indent : String
deriving DecidableEq, Repr

/-- The state of `firstPassVisitor` together with its embedded base visitor:
the rendered lines buffer and accumulated failures (base visitor), the
retained declarations and partitions, and the `haveHitNonComment` flag. -/
structure FirstPassVisitor where
  indent : String
  lines : List String
  Failures : List Failure
  Syntax : Option SyntaxDecl
  Package : Option PackageDecl
  Options : List OptionDecl
  ProbablyCustomOptions : List OptionDecl
  Imports : List ImportDecl
  WKTImports : List ImportDecl
  haveHitNonComment : Bool
deriving DecidableEq, Repr

/-- `newFirstPassVisitor`: a fresh visitor over a fresh base visitor with the
configured indent; everything else empty, the flag false. -/
def newFirstPassVisitor (config : Config) : FirstPassVisitor :=
  { indent := config.indent
    lines := []
    Failures := []
    Syntax := none
    Package := none
    Options := []
    ProbablyCustomOptions := []
    Imports := []
    WKTImports := []
    haveHitNonComment := false }

/-- Modelled from the spec: the Base Renderer's `emitLine` primitive (`P`).
The first pass renders at top-level indentation (level zero), so the
configured indent string contributes nothing to these lines; a call with no
parts emits a blank line, and spacing is always such an explicit call. -/
def P (v : FirstPassVisitor) (parts : List String) : FirstPassVisitor :=
  { v with lines := v.lines ++ [String.join parts] }

/-- Modelled from the spec: how an inline trailing comment is appended to the
same output line as its declaration (`emitWithInlineComment`); an absent
inline comment contributes nothing to the line. -/
def inlineSuffix : Option CommentDecl → String
  | none => ""
  | some c => " //" ++ String.intercalate " " c.lines

/-- Modelled from the spec: `emitComment` (`PComment`) renders an absent
comment as nothing and a present comment verbatim, line by line, with no
re-wrapping. -/
def PComment (v : FirstPassVisitor) : Option CommentDecl → FirstPassVisitor
  | none => v
  | some c => { v with lines := v.lines ++ c.lines }

/-- Modelled from the spec: `emitWithInlineComment` (`PWithInlineComment`)
emits one line made of the given parts with the inline comment, if any,
appended to that same line. -/
def PWithInlineComment (v : FirstPassVisitor) (ic : Option CommentDecl)
    (parts : List String) : FirstPassVisitor :=
  P v (parts ++ [inlineSuffix ic])

/-- Modelled from the spec: `recordDiagnostic` (`AddFailure`) appends one
non-fatal diagnostic carrying the given position and message. -/
def AddFailure (v : FirstPassVisitor) (p : Position) (message : String) :
    FirstPassVisitor :=
  { v with
    Failures := v.Failures ++ [{ line := p.line, column := p.column, message := message }] }

/-- `isProbablyCustomOption` from first_pass_visitor.go: an option is
(probably) custom iff its name starts with the character `(` (Go's
`strings.HasPrefix(option.Name, "(")`, embedded as a prefix test on the
name's character sequence); a dotted, non-parenthesized extension-style
name is deliberately not detected. -/
def isProbablyCustomOption (option : OptionDecl) : Bool :=
  "(".data.isPrefixOf option.name.data

/-- The body of the `POptions` rendering loop for one option: leading comment
first, then one line `option <name> = <value>;` with the inline comment
appended. -/
def pOptionOne (v : FirstPassVisitor) (o : OptionDecl) : FirstPassVisitor :=
  PWithInlineComment (PComment v o.comment) o.inlineComment
    ["option ", o.name, " = ", o.constant, ";"]

/-- Modelled from the spec: `emitOptionsBlock` (`POptions`) renders the given
options one per line, in list order, never re-sorting (the one-per-line
versus block form is a presentation detail the spec leaves unconstrained;
the claims depend only on order and on one line per option). -/
def POptions (v : FirstPassVisitor) (_multiline : Bool)
    (opts : List OptionDecl) : FirstPassVisitor :=
  opts.foldl pOptionOne v

/-- The sort applied by `PImports`: Go's `sort.Slice` with the comparator
`imports[i].Filename < imports[j].Filename`, i.e. ascending by filename;
embedded as `mergeSort` under the corresponding total order on filenames. -/
def sortImports (imports : List ImportDecl) : List ImportDecl :=
  imports.mergeSort (fun a b => decide (a.filename ≤ b.filename))

/-- The body of the `PImports` rendering loop for one import: leading comment
first, then one line `import "<filename>";` with the inline comment appended
after the semicolon. -/
def pImportOne (v : FirstPassVisitor) (i : ImportDecl) : FirstPassVisitor :=
  PWithInlineComment (PComment v i.comment) i.inlineComment
    ["import \"", i.filename, "\";"]

/-- `PImports` from first_pass_visitor.go: nothing for an empty list;
otherwise sort ascending by filename and render each import. -/
def PImports (v : FirstPassVisitor) (imports : List ImportDecl) :
    FirstPassVisitor :=
  if imports.length = 0 then v
  else (sortImports imports).foldl pImportOne v

/-- The one step of the traversal: the per-kind `Visit*` methods of
`firstPassVisitor` (first_pass_visitor.go lines 81-174), as one exhaustive
match over the declaration kinds.  Every non-comment kind sets
`haveHitNonComment`; duplicate Syntax/Package record a diagnostic at the
extra declaration's own position and are discarded; options and imports are
classified and appended; a comment renders (followed by a blank line) only
while `haveHitNonComment` is still false. -/
def visit (wkt : String → Bool) (v : FirstPassVisitor) : Decl → FirstPassVisitor
  | .syntaxDecl e =>
    let v := { v with haveHitNonComment := true }
    match v.Syntax with
    | some _ => AddFailure v e.position "duplicate syntax specified"
    | none => { v with Syntax := some e }
  | .packageDecl e =>
    let v := { v with haveHitNonComment := true }
    match v.Package with
    | some _ => AddFailure v e.position "duplicate package specified"
    | none => { v with Package := some e }
  | .optionDecl e =>
    let v := { v with haveHitNonComment := true }
    if isProbablyCustomOption e then
      { v with ProbablyCustomOptions := v.ProbablyCustomOptions ++ [e] }
    else
      { v with Options := v.Options ++ [e] }
  | .importDecl e =>
    let v := { v with haveHitNonComment := true }
    if wkt e.filename then
      { v with WKTImports := v.WKTImports ++ [e] }
    else
      { v with Imports := v.Imports ++ [e] }
  | .commentDecl e =>
    if v.haveHitNonComment then v
    else P (PComment v (some e)) []
  | .otherDecl _ _ => { v with haveHitNonComment := true }

/-- The Syntax block of `Do` (first_pass_visitor.go lines 51-59): if a
Syntax was retained, its leading comment, a blank line after that comment
when present (the special case), the `syntax = "<value>";` line with inline
comment, then a blank line. -/
def doSyntax (v : FirstPassVisitor) : FirstPassVisitor :=
  match v.Syntax with
  | none => v
  | some s =>
    let v1 := PComment v s.comment
    let v2 := if s.comment.isSome then P v1 [] else v1
    let v3 := PWithInlineComment v2 s.inlineComment ["syntax = \"", s.value, "\";"]
    P v3 []

/-- The WKT-imports block of `Do` (lines 60-63). -/
def doWKTImports (v : FirstPassVisitor) : FirstPassVisitor :=
  if v.WKTImports.length > 0 then P (PImports v v.WKTImports) [] else v

/-- The regular-imports block of `Do` (lines 64-67). -/
def doImports (v : FirstPassVisitor) : FirstPassVisitor :=
  if v.Imports.length > 0 then P (PImports v v.Imports) [] else v

/-- The Package block of `Do` (lines 68-72): leading comment (no blank line
after it), the `package <name>;` line with inline comment, then a blank. -/
def doPackage (v : FirstPassVisitor) : FirstPassVisitor :=
  match v.Package with
  | none => v
  | some p =>
    P (PWithInlineComment (PComment v p.comment) p.inlineComment
        ["package ", p.name, ";"]) []

/-- The options block of `Do` (lines 73-77): when either partition is
non-empty, plain options then custom options, then one blank line. -/
def doOptions (v : FirstPassVisitor) : FirstPassVisitor :=
  if v.Options.length > 0 || v.ProbablyCustomOptions.length > 0 then
    P (POptions (POptions v false v.Options) false v.ProbablyCustomOptions) []
  else v

/-- `Do` from first_pass_visitor.go lines 50-79: render the retained header
elements in the fixed order Syntax, WKT imports, regular imports, Package,
options; Go returns `v.Failures`, which here stays in the returned state. -/
def Do (v : FirstPassVisitor) : FirstPassVisitor :=
  doOptions (doPackage (doImports (doWKTImports (doSyntax v))))

/-- Run the visitor over the declarations of one document strictly in
document order (the dispatch contract). -/
def runVisitor (wkt : String → Bool) (v : FirstPassVisitor) (ds : List Decl) :
    FirstPassVisitor :=
  ds.foldl (visit wkt) v

/-- The whole first pass on one document: fresh visitor, traversal in
document order, then `Do`.  The rendered text is the lines buffer; the
diagnostics are the Failures list. -/
def firstPass (wkt : String → Bool) (config : Config) (ds : List Decl) :
    FirstPassVisitor :=
  Do (runVisitor wkt (newFirstPassVisitor config) ds)

/-! ### Characterizations of the traversal state

Derived descriptions of the state after a traversal and of the rendered
sections, proved equal to what the embedded code computes.  These are the
vocabulary of the claims. -/

/-- Projection of a declaration to a Syntax node, when it is one. -/
def Decl.syntaxDecl? : Decl → Option SyntaxDecl
  | .syntaxDecl e => some e
  | _ => none

/-- Projection of a declaration to a Package node, when it is one. -/
def Decl.packageDecl? : Decl → Option PackageDecl
  | .packageDecl e => some e
  | _ => none

/-- Projection of a declaration to an Option node, when it is one. -/
def Decl.optionDecl? : Decl → Option OptionDecl
  | .optionDecl e => some e
  | _ => none

/-- Projection of a declaration to an Import node, when it is one. -/
def Decl.importDecl? : Decl → Option ImportDecl
  | .importDecl e => some e
  | _ => none

/-- Whether a declaration is a comment (the one kind that does not flip
`haveHitNonComment`). -/
def Decl.isComment : Decl → Bool
  | .commentDecl _ => true
  | _ => false

/-- The Syntax declarations of a document, in document order. -/
def syntaxDecls (ds : List Decl) : List SyntaxDecl :=
  ds.filterMap Decl.syntaxDecl?

/-- The Package declarations of a document, in document order. -/
def packageDecls (ds : List Decl) : List PackageDecl :=
  ds.filterMap Decl.packageDecl?

/-- The top-level Option declarations of a document, in document order. -/
def optionDecls (ds : List Decl) : List OptionDecl :=
  ds.filterMap Decl.optionDecl?

/-- The top-level Import declarations of a document, in document order. -/
def importDecls (ds : List Decl) : List ImportDecl :=
  ds.filterMap Decl.importDecl?

/-- The lines a traversal starting with `pastHeader = past` emits: each
comment visited while the flag is false renders verbatim followed by one
blank line; the first non-comment declaration flips the flag and from then
on comments contribute nothing. -/
def headerCommentLines (past : Bool) : List Decl → List String
  | [] => []
  | .commentDecl c :: rest =>
    (if past then [] else c.lines ++ [""]) ++ headerCommentLines past rest
  | _ :: rest => headerCommentLines true rest

/-- The comment declarations the pass renders as the leading block: the
comments standing before the first non-comment declaration. -/
def headerComments : List Decl → List CommentDecl
  | [] => []
  | .commentDecl c :: rest => c :: headerComments rest
  | _ :: _ => []

/-- Build a Failure from a position and a message, as `AddFailure` does. -/
def failureOf (p : Position) (message : String) : Failure :=
  { line := p.line, column := p.column, message := message }

/-- The diagnostics a traversal emits when it starts with a Syntax already
retained iff `hasSyn` and a Package already retained iff `hasPkg`: one
duplicate diagnostic at the extra declaration's own position for every
Syntax/Package beyond the first, in document order. -/
def dupFailures (hasSyn hasPkg : Bool) : List Decl → List Failure
  | [] => []
  | .syntaxDecl e :: rest =>
    (if hasSyn then [failureOf e.position "duplicate syntax specified"] else [])
      ++ dupFailures true hasPkg rest
  | .packageDecl e :: rest =>
    (if hasPkg then [failureOf e.position "duplicate package specified"] else [])
      ++ dupFailures hasSyn true rest
  | _ :: rest => dupFailures hasSyn hasPkg rest

/-- The lines of an optional leading comment: none renders as nothing. -/
def commentLinesOf : Option CommentDecl → List String
  | none => []
  | some c => c.lines

/-- One output line made of parts with the inline comment appended, exactly
as `PWithInlineComment` emits it. -/
def lineOf (parts : List String) (ic : Option CommentDecl) : String :=
  String.join (parts ++ [inlineSuffix ic])

/-- The rendered `syntax = "<value>";` line. -/
def syntaxLine (s : SyntaxDecl) : String :=
  lineOf ["syntax = \"", s.value, "\";"] s.inlineComment

/-- The rendered `package <name>;` line. -/
def packageLine (p : PackageDecl) : String :=
  lineOf ["package ", p.name, ";"] p.inlineComment

/-- The rendered `import "<filename>";` line. -/
def importLine (i : ImportDecl) : String :=
  lineOf ["import \"", i.filename, "\";"] i.inlineComment

/-- The rendered `option <name> = <value>;` line. -/
def optionLine (o : OptionDecl) : String :=
  lineOf ["option ", o.name, " = ", o.constant, ";"] o.inlineComment

/-- The lines of one rendered import: its leading comment, then its line. -/
def importEntry (i : ImportDecl) : List String :=
  commentLinesOf i.comment ++ [importLine i]

/-- The lines of a rendered import list, in list order. -/
def importEntries : List ImportDecl → List String
  | [] => []
  | i :: rest => importEntry i ++ importEntries rest

/-- The lines of one rendered option: its leading comment, then its line. -/
def optionEntry (o : OptionDecl) : List String :=
  commentLinesOf o.comment ++ [optionLine o]

/-- The lines of a rendered option list, in list order. -/
def optionEntries : List OptionDecl → List String
  | [] => []
  | o :: rest => optionEntry o ++ optionEntries rest

/-- The body of the rendered Syntax section (no trailing blank): leading
comment, one blank after it when present (the special case), the line. -/
def syntaxBody : Option SyntaxDecl → List String
  | none => []
  | some s =>
    commentLinesOf s.comment ++ (if s.comment.isSome then [""] else [])
      ++ [syntaxLine s]

/-- The body of a rendered import group (no trailing blank): the group
sorted ascending by filename, each import with its comment and line. -/
def importsBody (imports : List ImportDecl) : List String :=
  importEntries (sortImports imports)

/-- The body of the rendered Package section (no trailing blank): leading
comment (no blank after it), the line. -/
def packageBody : Option PackageDecl → List String
  | none => []
  | some p => commentLinesOf p.comment ++ [packageLine p]

/-- The body of the rendered options section (no trailing blank): plain
options then custom options, each partition in encounter order. -/
def optionsBody (plain custom : List OptionDecl) : List String :=
  optionEntries plain ++ optionEntries custom

/-- Join section bodies: an empty section contributes no output at all; a
non-empty section contributes its body followed by exactly one blank line
(so consecutive non-empty sections are separated by exactly one blank). -/
def sectionJoin : List (List String) → List String
  | [] => []
  | s :: rest => (if s.length = 0 then [] else s ++ [""]) ++ sectionJoin rest

/-- The rendered Syntax section: nothing when no Syntax was retained,
otherwise its body followed by one blank line. -/
def syntaxSection (o : Option SyntaxDecl) : List String :=
  match o with
  | none => []
  | some s => syntaxBody (some s) ++ [""]

/-- The rendered lines of one import group: nothing for an empty group,
otherwise its body followed by one blank line. -/
def importsSection (l : List ImportDecl) : List String :=
  if l.length = 0 then [] else importsBody l ++ [""]

/-- The rendered Package section: nothing when no Package was retained,
otherwise its body followed by one blank line. -/
def packageSection (o : Option PackageDecl) : List String :=
  match o with
  | none => []
  | some p => packageBody (some p) ++ [""]

/-- The rendered options section: nothing when both partitions are empty,
otherwise its body followed by one blank line. -/
def optionsSection (plain custom : List OptionDecl) : List String :=
  if plain.length > 0 || custom.length > 0 then optionsBody plain custom ++ [""]
  else []

/-- The rendered block of a list of leading comments: each comment's lines
followed by one blank-line separator (spec §4.3 step 2). -/
def commentBlock : List CommentDecl → List String
  | [] => []
  | c :: rest => c.lines ++ [""] ++ commentBlock rest

/-- The canonical document corresponding to the pass's own output: the
header comments, then the retained Syntax, the WKT imports sorted, the
regular imports sorted, the retained Package, the plain options and the
custom options.  This is the AST a correct parser yields for the rendered
header text (the parser itself is an external collaborator). -/
def canonicalDecls (wkt : String → Bool) (ds : List Decl) : List Decl :=
  (headerComments ds).map Decl.commentDecl
    ++ ((syntaxDecls ds).head?.toList).map Decl.syntaxDecl
    ++ (sortImports ((importDecls ds).filter (fun i => wkt i.filename))).map Decl.importDecl
    ++ (sortImports ((importDecls ds).filter (fun i => !wkt i.filename))).map Decl.importDecl
    ++ ((packageDecls ds).head?.toList).map Decl.packageDecl
    ++ ((optionDecls ds).filter (fun o => !isProbablyCustomOption o)).map Decl.optionDecl
    ++ ((optionDecls ds).filter isProbablyCustomOption).map Decl.optionDecl

/-! ### The configuration resolver (src/unnamed/part_000, package settings)

Absolute directory paths are modelled cleaned, as the list of path
components below the filesystem root; the parent of a directory drops the
last component and the root is the empty list (`filepath.Dir`), and joining
a filename appends it (`filepath.Join`).  The filesystem is modelled as the
predicate telling which directories contain the default config file
(`os.Stat` succeeding on `Join(dir, DefaultConfigFilename)`). -/

/-- Modelled from the spec: the default config filename constant
(`DefaultConfigFilename`, declared outside the provided sources; no claim
depends on its concrete value). -/
def DefaultConfigFilename : String := "prototool.yaml"

/-- The filesystem as the resolver observes it: which (cleaned, absolute)
directories contain the default config file. -/
structure FileSystem where
  hasConfigFile : List String → Bool

/-- `getFilePathForDir` (src/unnamed/part_000 lines 171-184): starting at
the given directory, record the directory, return the joined config path
when the directory contains the config file, stop with no result at the
root, else continue at the parent.  Returns the found path (or none) and
the directories visited, in order. -/
def getFilePathForDir (fs : FileSystem) (dirPath : List String) :
    Option (List String) × List (List String) :=
  if fs.hasConfigFile dirPath then
    (some (dirPath ++ [DefaultConfigFilename]), [dirPath])
  else if dirPath = [] then
    (none, [dirPath])
  else
    let r := getFilePathForDir fs dirPath.dropLast
    (r.1, dirPath :: r.2)
termination_by dirPath.length
decreasing_by
  rename_i h1 h2
  have : dirPath.length ≠ 0 := fun e => h2 (List.length_eq_zero.mp e)
  simp [List.length_dropLast]
  omega

/-- The ancestors of a directory, deepest first: the directory itself, its
parent, and so on up to and including the root. -/
def ancestorsOf (dirPath : List String) : List (List String) :=
  if dirPath = [] then [[]]
  else dirPath :: ancestorsOf dirPath.dropLast
termination_by dirPath.length
decreasing_by
  rename_i h
  have : dirPath.length ≠ 0 := fun e => h (List.length_eq_zero.mp e)
  simp [List.length_dropLast]
  omega

/-- Modelled from the spec: the deepest ancestor of the directory (itself
included, up to and including the root) whose directory contains the
default config filename — the spec-side description of the upward walk. -/
def deepestAncestorWithConfig (fs : FileSystem) (dirPath : List String) :
    Option (List String) :=
  (ancestorsOf dirPath).find? fs.hasConfigFile

/-- `filepath.IsAbs`, modelled: a path is absolute iff it starts with `/`. -/
def isAbs (path : String) : Bool :=
  "/".data.isPrefixOf path.data

/-- `filepath.Clean` on an absolute path without dot segments, modelled:
the non-empty components between slashes. -/
def cleanComponents (path : String) : List String :=
  (path.splitOn "/").filter (fun c => c ≠ "")

/-- Render a cleaned absolute directory or file path back to a string. -/
def renderPath (components : List String) : String :=
  "/" ++ String.intercalate "/" components

/-- `configProvider.GetFilePathForDir` (src/unnamed/part_000 lines 70-100)
on a fresh provider (empty caches, so the cache lookup misses and the
upward search runs): an error iff the given path is not absolute; otherwise
the found config file path, or the empty string when no ancestor up to and
including the root contains one. -/
def GetFilePathForDir (fs : FileSystem) (dirPath : String) :
    Except String String :=
  if !isAbs dirPath then
    Except.error (dirPath ++ " is not an absolute path")
  else
    match (getFilePathForDir fs (cleanComponents dirPath)).1 with
    | none => Except.ok ""
    | some fp => Except.ok (renderPath fp)

/-! ### The traversal and `Do`, characterized -/

theorem String_join_nil : String.join [] = "" := rfl

theorem runVisitor_nil (wkt : String → Bool) (v : FirstPassVisitor) :
    runVisitor wkt v [] = v := rfl

theorem runVisitor_cons (wkt : String → Bool) (v : FirstPassVisitor)
    (d : Decl) (rest : List Decl) :
    runVisitor wkt v (d :: rest) = runVisitor wkt (visit wkt v d) rest := rfl

/-- What one whole traversal computes, for every starting state: the lines
gain the pre-header comment block, the failures gain one duplicate
diagnostic per extra Syntax/Package, first-seen Syntax/Package win, options
and imports are partitioned in encounter order, and the flag becomes true
iff it was or any non-comment declaration occurs. -/
theorem runVisitor_eq (wkt : String → Bool) (ds : List Decl)
    (v : FirstPassVisitor) :
    runVisitor wkt v ds =
      { indent := v.indent
        lines := v.lines ++ headerCommentLines v.haveHitNonComment ds
        Failures := v.Failures ++ dupFailures v.Syntax.isSome v.Package.isSome ds
        Syntax := v.Syntax.or (syntaxDecls ds).head?
        Package := v.Package.or (packageDecls ds).head?
        Options := v.Options ++ (optionDecls ds).filter (fun o => !isProbablyCustomOption o)
        ProbablyCustomOptions := v.ProbablyCustomOptions ++ (optionDecls ds).filter isProbablyCustomOption
        Imports := v.Imports ++ (importDecls ds).filter (fun i => !wkt i.filename)
        WKTImports := v.WKTImports ++ (importDecls ds).filter (fun i => wkt i.filename)
        haveHitNonComment := v.haveHitNonComment || ds.any (fun d => !d.isComment) } := by
  induction ds generalizing v with
  | nil =>
    simp [runVisitor_nil, headerCommentLines, dupFailures, syntaxDecls,
      packageDecls, optionDecls, importDecls]
  | cons d rest ih =>
    rw [runVisitor_cons, ih]
    cases d with
    | syntaxDecl e =>
      cases hs : v.Syntax <;>
        simp [visit, AddFailure, hs, headerCommentLines, dupFailures,
          syntaxDecls, packageDecls, optionDecls, importDecls,
          Decl.syntaxDecl?, Decl.packageDecl?, Decl.optionDecl?,
          Decl.importDecl?, Decl.isComment, failureOf]
    | packageDecl e =>
      cases hp : v.Package <;>
        simp [visit, AddFailure, hp, headerCommentLines, dupFailures,
          syntaxDecls, packageDecls, optionDecls, importDecls,
          Decl.syntaxDecl?, Decl.packageDecl?, Decl.optionDecl?,
          Decl.importDecl?, Decl.isComment, failureOf]
    | optionDecl e =>
      by_cases hc : isProbablyCustomOption e <;>
        simp [visit, hc, headerCommentLines, dupFailures, syntaxDecls,
          packageDecls, optionDecls, importDecls, Decl.syntaxDecl?,
          Decl.packageDecl?, Decl.optionDecl?, Decl.importDecl?,
          Decl.isComment]
    | importDecl e =>
      by_cases hw : wkt e.filename <;>
        simp [visit, hw, headerCommentLines, dupFailures, syntaxDecls,
          packageDecls, optionDecls, importDecls, Decl.syntaxDecl?,
          Decl.packageDecl?, Decl.optionDecl?, Decl.importDecl?,
          Decl.isComment]
    | commentDecl e =>
      cases hb : v.haveHitNonComment <;>
        simp [visit, P, PComment, hb, String_join_nil, headerCommentLines,
          dupFailures, syntaxDecls, packageDecls, optionDecls, importDecls,
          Decl.syntaxDecl?, Decl.packageDecl?, Decl.optionDecl?,
          Decl.importDecl?, Decl.isComment]
    | otherDecl k p =>
      simp [visit, headerCommentLines, dupFailures, syntaxDecls,
        packageDecls, optionDecls, importDecls, Decl.syntaxDecl?,
        Decl.packageDecl?, Decl.optionDecl?, Decl.importDecl?,
        Decl.isComment]

theorem optionFoldl_eq (opts : List OptionDecl) (v : FirstPassVisitor) :
    opts.foldl pOptionOne v = { v with lines := v.lines ++ optionEntries opts } := by
  induction opts generalizing v with
  | nil => simp [optionEntries]
  | cons o rest ih =>
    rw [List.foldl_cons, ih]
    cases hc : o.comment <;>
      simp [pOptionOne, PWithInlineComment, P, PComment, hc, optionEntries,
        optionEntry, commentLinesOf, optionLine, lineOf]

theorem POptions_eq (v : FirstPassVisitor) (b : Bool) (opts : List OptionDecl) :
    POptions v b opts = { v with lines := v.lines ++ optionEntries opts } := by
  simp [POptions, optionFoldl_eq]

theorem importFoldl_eq (l : List ImportDecl) (v : FirstPassVisitor) :
    l.foldl pImportOne v = { v with lines := v.lines ++ importEntries l } := by
  induction l generalizing v with
  | nil => simp [importEntries]
  | cons i rest ih =>
    rw [List.foldl_cons, ih]
    cases hc : i.comment <;>
      simp [pImportOne, PWithInlineComment, P, PComment, hc, importEntries,
        importEntry, commentLinesOf, importLine, lineOf]

theorem PImports_eq (v : FirstPassVisitor) (imports : List ImportDecl) :
    PImports v imports =
      { v with lines := v.lines ++
          (if imports.length = 0 then [] else importsBody imports) } := by
  by_cases h : imports.length = 0 <;>
    simp [PImports, h, importFoldl_eq, importsBody]

theorem doSyntax_eq (v : FirstPassVisitor) :
    doSyntax v = { v with lines := v.lines ++ syntaxSection v.Syntax } := by
  cases hs : v.Syntax with
  | none =>
    simp [doSyntax, hs, syntaxSection]
    rw [← hs]
  | some s =>
    cases hc : s.comment <;>
      simp [doSyntax, hs, hc, syntaxSection, syntaxBody, PComment, P,
        PWithInlineComment, commentLinesOf, syntaxLine, lineOf,
        String_join_nil]

theorem doWKTImports_eq (v : FirstPassVisitor) :
    doWKTImports v = { v with lines := v.lines ++ importsSection v.WKTImports } := by
  by_cases h : v.WKTImports.length = 0
  · simp [doWKTImports, importsSection, h, PImports_eq, P, String_join_nil]
  · simp [doWKTImports, importsSection, h, PImports_eq, P, String_join_nil,
      Nat.pos_of_ne_zero h]

theorem doImports_eq (v : FirstPassVisitor) :
    doImports v = { v with lines := v.lines ++ importsSection v.Imports } := by
  by_cases h : v.Imports.length = 0
  · simp [doImports, importsSection, h, PImports_eq, P, String_join_nil]
  · simp [doImports, importsSection, h, PImports_eq, P, String_join_nil,
      Nat.pos_of_ne_zero h]

theorem doPackage_eq (v : FirstPassVisitor) :
    doPackage v = { v with lines := v.lines ++ packageSection v.Package } := by
  cases hp : v.Package with
  | none =>
    simp [doPackage, hp, packageSection]
    rw [← hp]
  | some p =>
    cases hc : p.comment <;>
      simp [doPackage, hp, hc, packageSection, packageBody, PComment, P,
        PWithInlineComment, commentLinesOf, packageLine, lineOf,
        String_join_nil]

theorem doOptions_eq (v : FirstPassVisitor) :
    doOptions v =
      { v with lines := v.lines ++ optionsSection v.Options v.ProbablyCustomOptions } := by
  by_cases h : v.Options.length > 0 || v.ProbablyCustomOptions.length > 0 <;>
    simp [doOptions, optionsSection, h, POptions_eq, P, optionsBody,
      String_join_nil]

/-- `Do` only appends the rendered sections, in the fixed order, to the
lines buffer; every other component of the state is untouched. -/
theorem Do_eq (v : FirstPassVisitor) :
    Do v = { v with lines := v.lines
      ++ syntaxSection v.Syntax
      ++ importsSection v.WKTImports
      ++ importsSection v.Imports
      ++ packageSection v.Package
      ++ optionsSection v.Options v.ProbablyCustomOptions } := by
  simp [Do, doSyntax_eq, doWKTImports_eq, doImports_eq, doPackage_eq,
    doOptions_eq]

/-- The whole first pass, characterized: the complete output state as a
function of the document. -/
theorem firstPass_eq (wkt : String → Bool) (cfg : Config) (ds : List Decl) :
    firstPass wkt cfg ds =
      { indent := cfg.indent
        lines := headerCommentLines false ds
          ++ syntaxSection (syntaxDecls ds).head?
          ++ importsSection ((importDecls ds).filter (fun i => wkt i.filename))
          ++ importsSection ((importDecls ds).filter (fun i => !wkt i.filename))
          ++ packageSection (packageDecls ds).head?
          ++ optionsSection ((optionDecls ds).filter (fun o => !isProbablyCustomOption o))
              ((optionDecls ds).filter isProbablyCustomOption)
        Failures := dupFailures false false ds
        Syntax := (syntaxDecls ds).head?
        Package := (packageDecls ds).head?
        Options := (optionDecls ds).filter (fun o => !isProbablyCustomOption o)
        ProbablyCustomOptions := (optionDecls ds).filter isProbablyCustomOption
        Imports := (importDecls ds).filter (fun i => !wkt i.filename)
        WKTImports := (importDecls ds).filter (fun i => wkt i.filename)
        haveHitNonComment := ds.any (fun d => !d.isComment) } := by
  simp [firstPass, runVisitor_eq, newFirstPassVisitor, Do_eq, Option.or]

/-! ### Emptiness of section bodies -/

theorem sortImports_eq_nil (l : List ImportDecl) :
    sortImports l = [] ↔ l = [] := by
  constructor
  · intro h
    have := congrArg List.length h
    simpa [sortImports] using this
  · intro h
    simp [h, sortImports]

theorem importEntries_eq_nil (l : List ImportDecl) :
    importEntries l = [] ↔ l = [] := by
  cases l with
  | nil => simp [importEntries]
  | cons i rest => simp [importEntries, importEntry]

theorem importsBody_eq_nil (l : List ImportDecl) :
    importsBody l = [] ↔ l = [] := by
  rw [importsBody, importEntries_eq_nil, sortImports_eq_nil]

theorem optionEntries_eq_nil (l : List OptionDecl) :
    optionEntries l = [] ↔ l = [] := by
  cases l with
  | nil => simp [optionEntries]
  | cons o rest => simp [optionEntries, optionEntry]

theorem syntaxSection_eq (o : Option SyntaxDecl) :
    syntaxSection o =
      (if (syntaxBody o).length = 0 then [] else syntaxBody o ++ [""]) := by
  cases o with
  | none => simp [syntaxSection, syntaxBody]
  | some s => cases hc : s.comment <;> simp [syntaxSection, syntaxBody, hc]

theorem importsSection_eq (l : List ImportDecl) :
    importsSection l =
      (if (importsBody l).length = 0 then [] else importsBody l ++ [""]) := by
  by_cases h : l = []
  · simp [importsSection, importsBody, h, importEntries, sortImports]
  · have hb : importsBody l ≠ [] := fun e => h ((importsBody_eq_nil l).mp e)
    have hl : l.length ≠ 0 := fun e => h (List.length_eq_zero.mp e)
    simp [importsSection, hl, List.length_eq_zero, hb]

theorem packageSection_eq (o : Option PackageDecl) :
    packageSection o =
      (if (packageBody o).length = 0 then [] else packageBody o ++ [""]) := by
  cases o with
  | none => simp [packageSection, packageBody]
  | some p => simp [packageSection, packageBody]

theorem optionsSection_eq (plain custom : List OptionDecl) :
    optionsSection plain custom =
      (if (optionsBody plain custom).length = 0 then []
       else optionsBody plain custom ++ [""]) := by
  by_cases hp : plain = [] <;> by_cases hc : custom = [] <;>
    simp [optionsSection, optionsBody, hp, hc, optionEntries,
      List.length_eq_zero, optionEntries_eq_nil, Nat.pos_of_ne_zero,
      List.length_pos]

/-! ### The claims -/

/-- C1: for every input document, the header pass renders the sections in
the fixed order leading comment, syntax, WKT imports, regular imports,
package, plain options, custom options; every non-empty section is followed
by exactly one blank line (so two consecutively rendered non-empty sections
are separated by exactly one blank line), and an empty section contributes
no output at all. -/
theorem claim_C1 (wkt : String → Bool) (cfg : Config) (ds : List Decl) :
    (firstPass wkt cfg ds).lines =
      headerCommentLines false ds
        ++ sectionJoin
          [ syntaxBody (syntaxDecls ds).head?
          , importsBody ((importDecls ds).filter (fun i => wkt i.filename))
          , importsBody ((importDecls ds).filter (fun i => !wkt i.filename))
          , packageBody (packageDecls ds).head?
          , optionsBody
              ((optionDecls ds).filter (fun o => !isProbablyCustomOption o))
              ((optionDecls ds).filter isProbablyCustomOption) ] := by
  rw [firstPass_eq]
  simp only [sectionJoin, syntaxSection_eq, importsSection_eq,
    packageSection_eq, optionsSection_eq, List.append_nil, List.append_assoc]

/-- C4: a top-level Option is classified as custom iff its name begins with
the character `(`, plain otherwise; both partitions keep encounter order
(they are the order-preserving filters of the document's options); an
option named `(foo.bar).baz` is custom, `go_package` is plain, and the
dotted extension-style `google.protobuf.java_package` is (deliberately)
plain as well. -/
theorem claim_C4 (wkt : String → Bool) (cfg : Config) (ds : List Decl) :
    (firstPass wkt cfg ds).ProbablyCustomOptions
        = (optionDecls ds).filter isProbablyCustomOption
  ∧ (firstPass wkt cfg ds).Options
        = (optionDecls ds).filter (fun o => !isProbablyCustomOption o)
  ∧ (∀ o : OptionDecl, isProbablyCustomOption o = true ↔ o.name.data.head? = some '(')
  ∧ isProbablyCustomOption ⟨⟨1, 1⟩, none, none, "(foo.bar).baz", "v"⟩ = true
  ∧ isProbablyCustomOption ⟨⟨1, 1⟩, none, none, "go_package", "v"⟩ = false
  ∧ isProbablyCustomOption
      ⟨⟨1, 1⟩, none, none, "google.protobuf.java_package", "v"⟩ = false := by
  refine ⟨?_, ?_, ?_, by decide, by decide, by decide⟩
  · rw [firstPass_eq]
  · rw [firstPass_eq]
  · intro o
    have hdata : "(".data = ['('] := rfl
    rw [isProbablyCustomOption, hdata]
    cases h : o.name.data with
    | nil => simp [List.isPrefixOf]
    | cons a t =>
      simp [List.isPrefixOf]
      exact eq_comm

/-- C5: the `pastHeader` flag (`haveHitNonComment`) is false on a fresh
visitor; after any visit it equals the disjunction of its previous value
with "the visited declaration is not a comment" (hence it is set by the
first non-comment declaration of any kind and is monotone: once true it
never returns to false); a comment visited while the flag is true produces
no output at all, and a comment visited while it is false renders its lines
followed by one blank line, leaving the flag false. -/
theorem claim_C5 (wkt : String → Bool) (cfg : Config) :
    (newFirstPassVisitor cfg).haveHitNonComment = false
  ∧ (∀ (v : FirstPassVisitor) (d : Decl),
      (visit wkt v d).haveHitNonComment = (v.haveHitNonComment || !d.isComment))
  ∧ (∀ (v : FirstPassVisitor) (ds : List Decl),
      (runVisitor wkt v ds).haveHitNonComment
        = (v.haveHitNonComment || ds.any (fun d => !d.isComment)))
  ∧ (∀ (v : FirstPassVisitor) (c : CommentDecl),
      visit wkt { v with haveHitNonComment := true } (.commentDecl c)
        = { v with haveHitNonComment := true })
  ∧ (∀ (v : FirstPassVisitor) (c : CommentDecl),
      visit wkt { v with haveHitNonComment := false } (.commentDecl c)
        = { v with haveHitNonComment := false, lines := v.lines ++ c.lines ++ [""] }) := by
  refine ⟨rfl, ?_, ?_, ?_, ?_⟩
  · intro v d
    cases d with
    | syntaxDecl e => cases hs : v.Syntax <;> simp [visit, hs, AddFailure, Decl.isComment]
    | packageDecl e => cases hp : v.Package <;> simp [visit, hp, AddFailure, Decl.isComment]
    | optionDecl e =>
      by_cases hc : isProbablyCustomOption e <;> simp [visit, hc, Decl.isComment]
    | importDecl e =>
      by_cases hw : wkt e.filename <;> simp [visit, hw, Decl.isComment]
    | commentDecl e =>
      cases hb : v.haveHitNonComment <;> simp [visit, hb, P, PComment, Decl.isComment]
    | otherDecl k p => simp [visit, Decl.isComment]
  · intro v ds
    simp [runVisitor_eq]
  · intro v c
    simp [visit]
  · intro v c
    simp [visit, P, PComment, String_join_nil]

theorem dupFailures_filter_syntax (ds : List Decl) (hasSyn hasPkg : Bool) :
    (dupFailures hasSyn hasPkg ds).filter
        (fun f => f.message == "duplicate syntax specified")
      = (if hasSyn then syntaxDecls ds else (syntaxDecls ds).drop 1).map
          (fun e => failureOf e.position "duplicate syntax specified") := by
  induction ds generalizing hasSyn hasPkg with
  | nil => cases hasSyn <;> simp [dupFailures, syntaxDecls]
  | cons d rest ih =>
    cases d with
    | syntaxDecl e =>
      cases hasSyn <;>
        simp [dupFailures, syntaxDecls, Decl.syntaxDecl?, List.filterMap_cons,
          failureOf, ih]
    | packageDecl e =>
      cases hasPkg <;>
        simp [dupFailures, syntaxDecls, Decl.syntaxDecl?, List.filterMap_cons,
          failureOf, ih]
    | optionDecl e =>
      simp [dupFailures, syntaxDecls, Decl.syntaxDecl?, List.filterMap_cons, ih]
    | importDecl e =>
      simp [dupFailures, syntaxDecls, Decl.syntaxDecl?, List.filterMap_cons, ih]
    | commentDecl e =>
      simp [dupFailures, syntaxDecls, Decl.syntaxDecl?, List.filterMap_cons, ih]
    | otherDecl k p =>
      simp [dupFailures, syntaxDecls, Decl.syntaxDecl?, List.filterMap_cons, ih]

theorem dupFailures_filter_package (ds : List Decl) (hasSyn hasPkg : Bool) :
    (dupFailures hasSyn hasPkg ds).filter
        (fun f => f.message == "duplicate package specified")
      = (if hasPkg then packageDecls ds else (packageDecls ds).drop 1).map
          (fun e => failureOf e.position "duplicate package specified") := by
  induction ds generalizing hasSyn hasPkg with
  | nil => cases hasPkg <;> simp [dupFailures, packageDecls]
  | cons d rest ih =>
    cases d with
    | syntaxDecl e =>
      cases hasSyn <;>
        simp [dupFailures, packageDecls, Decl.packageDecl?, List.filterMap_cons,
          failureOf, ih]
    | packageDecl e =>
      cases hasPkg <;>
        simp [dupFailures, packageDecls, Decl.packageDecl?, List.filterMap_cons,
          failureOf, ih]
    | optionDecl e =>
      simp [dupFailures, packageDecls, Decl.packageDecl?, List.filterMap_cons, ih]
    | importDecl e =>
      simp [dupFailures, packageDecls, Decl.packageDecl?, List.filterMap_cons, ih]
    | commentDecl e =>
      simp [dupFailures, packageDecls, Decl.packageDecl?, List.filterMap_cons, ih]
    | otherDecl k p =>
      simp [dupFailures, packageDecls, Decl.packageDecl?, List.filterMap_cons, ih]

/-- C2: the pass retains and renders only the first Syntax of the document
(the state's `Syntax`, which is what `Do` renders, is the head of the
document's Syntax declarations); the diagnostics carrying the message
"duplicate syntax specified" are exactly one per Syntax beyond the first,
in document order, each at its own declaration's position (never the
first's), so for n Syntax declarations there are exactly n-1 of them;
identically for Package with "duplicate package specified".  Traversal and
rendering continue (the remaining output state is exactly that of the
characterization, independent of the duplicates). -/
theorem claim_C2 (wkt : String → Bool) (cfg : Config) (ds : List Decl) :
    (firstPass wkt cfg ds).Syntax = (syntaxDecls ds).head?
  ∧ (firstPass wkt cfg ds).Failures.filter
        (fun f => f.message == "duplicate syntax specified")
      = ((syntaxDecls ds).drop 1).map
          (fun e => failureOf e.position "duplicate syntax specified")
  ∧ ((firstPass wkt cfg ds).Failures.filter
        (fun f => f.message == "duplicate syntax specified")).length
      = (syntaxDecls ds).length - 1
  ∧ (firstPass wkt cfg ds).Package = (packageDecls ds).head?
  ∧ (firstPass wkt cfg ds).Failures.filter
        (fun f => f.message == "duplicate package specified")
      = ((packageDecls ds).drop 1).map
          (fun e => failureOf e.position "duplicate package specified")
  ∧ ((firstPass wkt cfg ds).Failures.filter
        (fun f => f.message == "duplicate package specified")).length
      = (packageDecls ds).length - 1 := by
  refine ⟨?_, ?_, ?_, ?_, ?_, ?_⟩ <;>
    simp [firstPass_eq, dupFailures_filter_syntax, dupFailures_filter_package]

/-- The comparator of `sortImports` is transitive. -/
theorem importLe_trans (a b c : ImportDecl)
    (hab : (decide (a.filename ≤ b.filename)) = true)
    (hbc : (decide (b.filename ≤ c.filename)) = true) :
    (decide (a.filename ≤ c.filename)) = true := by
  simp only [decide_eq_true_eq] at *
  exact le_trans hab hbc

/-- The comparator of `sortImports` is total. -/
theorem importLe_total (a b : ImportDecl) :
    ((decide (a.filename ≤ b.filename)) || (decide (b.filename ≤ a.filename))) = true := by
  simp only [Bool.or_eq_true, decide_eq_true_eq]
  exact le_total a.filename b.filename

/-- A sorted import group: `sortImports` output is pairwise ascending by
filename. -/
theorem sortImports_sorted (l : List ImportDecl) :
    (sortImports l).Pairwise (fun a b => a.filename ≤ b.filename) := by
  have h := @List.sorted_mergeSort ImportDecl
    (fun a b => decide (a.filename ≤ b.filename))
    importLe_trans importLe_total l
  exact h.imp (fun hab => by simpa using hab)

/-- Sorting keeps exactly the members (it is a permutation). -/
theorem mem_sortImports (i : ImportDecl) (l : List ImportDecl) :
    i ∈ sortImports l ↔ i ∈ l := by
  simp [sortImports]

/-- C3: each top-level import is placed in the WKT group iff its filename
is in the registry, in the regular group otherwise (the groups are the
order-preserving filters of the document's imports, for every document and
hence for every permutation of its imports); in the rendered output the
WKT group appears before the regular group, and within each rendered group
the imports appear sorted ascending by filename. -/
theorem claim_C3 (wkt : String → Bool) (cfg : Config) (ds : List Decl) :
    (firstPass wkt cfg ds).WKTImports
        = (importDecls ds).filter (fun i => wkt i.filename)
  ∧ (firstPass wkt cfg ds).Imports
        = (importDecls ds).filter (fun i => !wkt i.filename)
  ∧ (∀ i : ImportDecl,
      i ∈ (firstPass wkt cfg ds).WKTImports
        ↔ i ∈ importDecls ds ∧ wkt i.filename = true)
  ∧ (∀ i : ImportDecl,
      i ∈ (firstPass wkt cfg ds).Imports
        ↔ i ∈ importDecls ds ∧ wkt i.filename = false)
  ∧ (sortImports ((importDecls ds).filter (fun i => wkt i.filename))).Pairwise
      (fun a b => a.filename ≤ b.filename)
  ∧ (sortImports ((importDecls ds).filter (fun i => !wkt i.filename))).Pairwise
      (fun a b => a.filename ≤ b.filename)
  ∧ (firstPass wkt cfg ds).lines =
      headerCommentLines false ds
        ++ syntaxSection (syntaxDecls ds).head?
        ++ importsSection ((importDecls ds).filter (fun i => wkt i.filename))
        ++ importsSection ((importDecls ds).filter (fun i => !wkt i.filename))
        ++ packageSection (packageDecls ds).head?
        ++ optionsSection
            ((optionDecls ds).filter (fun o => !isProbablyCustomOption o))
            ((optionDecls ds).filter isProbablyCustomOption) := by
  refine ⟨?_, ?_, ?_, ?_, sortImports_sorted _, sortImports_sorted _, ?_⟩
  · rw [firstPass_eq]
  · rw [firstPass_eq]
  · intro i
    simp [firstPass_eq, List.mem_filter]
  · intro i
    simp [firstPass_eq, List.mem_filter]
  · rw [firstPass_eq]

/-- C8: the header pass is deterministic and depends on nothing besides the
declaration sequence, the resolved configuration and the registry: runs on
equal inputs produce equal output states (text and diagnostics), and the
registry influences the output only through its values on the filenames the
document actually imports. -/
theorem claim_C8 (cfg cfg2 : Config) (ds ds2 : List Decl)
    (wkt wkt2 : String → Bool) :
    ((∀ i ∈ importDecls ds, wkt i.filename = wkt2 i.filename) →
      firstPass wkt cfg ds = firstPass wkt2 cfg ds)
  ∧ (cfg = cfg2 → ds = ds2 → (∀ f, wkt f = wkt2 f) →
      firstPass wkt cfg ds = firstPass wkt2 cfg2 ds2) := by
  constructor
  · intro h
    rw [firstPass_eq, firstPass_eq]
    have hf : (importDecls ds).filter (fun i => wkt i.filename)
        = (importDecls ds).filter (fun i => wkt2 i.filename) :=
      List.filter_congr (fun i hi => by rw [h i hi])
    have hnf : (importDecls ds).filter (fun i => !wkt i.filename)
        = (importDecls ds).filter (fun i => !wkt2 i.filename) :=
      List.filter_congr (fun i hi => by rw [h i hi])
    rw [hf, hnf]
  · intro h1 h2 h3
    rw [h1, h2, funext h3]

/-- Witness for C8 at a concrete input: two registries that agree on the one
imported filename but differ elsewhere give identical outputs. -/
theorem claim_C8_witness :
    firstPass (fun f => f == "google/protobuf/timestamp.proto") ⟨"  "⟩
        [Decl.importDecl ⟨⟨1, 1⟩, none, none, "google/protobuf/timestamp.proto"⟩]
      = firstPass
          (fun f => f == "google/protobuf/timestamp.proto" || f == "extra.proto")
          ⟨"  "⟩
          [Decl.importDecl ⟨⟨1, 1⟩, none, none, "google/protobuf/timestamp.proto"⟩] :=
  (claim_C8 ⟨"  "⟩ ⟨"  "⟩
      [Decl.importDecl ⟨⟨1, 1⟩, none, none, "google/protobuf/timestamp.proto"⟩]
      [Decl.importDecl ⟨⟨1, 1⟩, none, none, "google/protobuf/timestamp.proto"⟩]
      (fun f => f == "google/protobuf/timestamp.proto")
      (fun f => f == "google/protobuf/timestamp.proto" || f == "extra.proto")).1
    (by decide)

/-- C10: in the rendered output, a leading comment attached to the retained
Syntax declaration is separated from the syntax line by exactly one blank
line (the special case in `Do`), while a leading comment attached to the
Package declaration or to an Import is immediately followed by its
declaration's line with no blank in between; the first conjunct ties the
sections to the pass's actual output. -/
theorem claim_C10 (wkt : String → Bool) (cfg : Config) (ds : List Decl) :
    (firstPass wkt cfg ds).lines =
      headerCommentLines false ds
        ++ syntaxSection (syntaxDecls ds).head?
        ++ importsSection ((importDecls ds).filter (fun i => wkt i.filename))
        ++ importsSection ((importDecls ds).filter (fun i => !wkt i.filename))
        ++ packageSection (packageDecls ds).head?
        ++ optionsSection
            ((optionDecls ds).filter (fun o => !isProbablyCustomOption o))
            ((optionDecls ds).filter isProbablyCustomOption)
  ∧ (∀ (pos : Position) (c : CommentDecl) (ic : Option CommentDecl) (val : String),
      syntaxSection (some ⟨pos, some c, ic, val⟩)
        = c.lines ++ [""] ++ [syntaxLine ⟨pos, some c, ic, val⟩] ++ [""])
  ∧ (∀ (pos : Position) (c : CommentDecl) (ic : Option CommentDecl) (nm : String),
      packageSection (some ⟨pos, some c, ic, nm⟩)
        = c.lines ++ [packageLine ⟨pos, some c, ic, nm⟩] ++ [""])
  ∧ (∀ (pos : Position) (c : CommentDecl) (ic : Option CommentDecl) (fn : String),
      importEntry ⟨pos, some c, ic, fn⟩
        = c.lines ++ [importLine ⟨pos, some c, ic, fn⟩]) := by
  refine ⟨by rw [firstPass_eq], ?_, ?_, ?_⟩ <;> intros <;>
    simp [syntaxSection, syntaxBody, packageSection, packageBody,
      importEntry, commentLinesOf]

/-- A document of comments only has no Syntax, Package, Option or Import
declarations and yields no duplicate diagnostics. -/
theorem allComment_props (ds : List Decl) (h : ds.all Decl.isComment = true) :
    syntaxDecls ds = [] ∧ packageDecls ds = [] ∧ optionDecls ds = []
  ∧ importDecls ds = [] ∧ ∀ hs hp, dupFailures hs hp ds = [] := by
  induction ds with
  | nil => simp [syntaxDecls, packageDecls, optionDecls, importDecls, dupFailures]
  | cons d rest ih =>
    simp only [List.all_cons, Bool.and_eq_true] at h
    obtain ⟨hd, hrest⟩ := h
    obtain ⟨h1, h2, h3, h4, h5⟩ := ih hrest
    cases d with
    | commentDecl e =>
      have e1 : syntaxDecls (Decl.commentDecl e :: rest) = syntaxDecls rest := rfl
      have e2 : packageDecls (Decl.commentDecl e :: rest) = packageDecls rest := rfl
      have e3 : optionDecls (Decl.commentDecl e :: rest) = optionDecls rest := rfl
      have e4 : importDecls (Decl.commentDecl e :: rest) = importDecls rest := rfl
      refine ⟨e1.trans h1, e2.trans h2, e3.trans h3, e4.trans h4, fun hs hp => ?_⟩
      have e5 : dupFailures hs hp (Decl.commentDecl e :: rest)
          = dupFailures hs hp rest := rfl
      exact e5.trans (h5 hs hp)
    | syntaxDecl e => simp [Decl.isComment] at hd
    | packageDecl e => simp [Decl.isComment] at hd
    | optionDecl e => simp [Decl.isComment] at hd
    | importDecl e => simp [Decl.isComment] at hd
    | otherDecl k p => simp [Decl.isComment] at hd

/-- C6: a document with no imports, no options, no package and exactly one
Syntax declaration renders exactly the leading comment block, the syntax
line, and one trailing blank line (the comment block here covers both the
pre-header comments and the Syntax declaration's own attached comment with
its separator, which is what `syntaxBody` renders before the line); with no
comment attached to the Syntax the output is exactly the header block plus
the syntax line plus one blank; a comment-only document renders just the
comment block (each comment with its blank-line separator) and nothing
else, with no diagnostics. -/
theorem claim_C6 (wkt : String → Bool) (cfg : Config) (ds : List Decl)
    (s : SyntaxDecl) :
    (importDecls ds = [] → optionDecls ds = [] → packageDecls ds = [] →
      syntaxDecls ds = [s] →
        (firstPass wkt cfg ds).lines
          = headerCommentLines false ds ++ syntaxBody (some s) ++ [""])
  ∧ (importDecls ds = [] → optionDecls ds = [] → packageDecls ds = [] →
      syntaxDecls ds = [s] → s.comment = none →
        (firstPass wkt cfg ds).lines
          = headerCommentLines false ds ++ [syntaxLine s, ""])
  ∧ (ds.all Decl.isComment = true →
        (firstPass wkt cfg ds).lines = headerCommentLines false ds
      ∧ (firstPass wkt cfg ds).Failures = []) := by
  refine ⟨?_, ?_, ?_⟩
  · intro hi ho hp hs
    rw [firstPass_eq]
    simp [hi, ho, hp, hs, importsSection, packageSection, optionsSection,
      syntaxSection]
  · intro hi ho hp hs hc
    rw [firstPass_eq]
    simp [hi, ho, hp, hs, hc, importsSection, packageSection, optionsSection,
      syntaxSection, syntaxBody, commentLinesOf]
  · intro h
    obtain ⟨h1, h2, h3, h4, h5⟩ := allComment_props ds h
    rw [firstPass_eq]
    simp [h1, h2, h3, h4, h5, importsSection, packageSection, optionsSection,
      syntaxSection]

/-- Witness for C6 at a concrete input: a header comment and a single
syntax declaration render as the comment block, the syntax line, and one
trailing blank line. -/
theorem claim_C6_witness :
    (firstPass (fun _ => false) ⟨"  "⟩
        [Decl.commentDecl ⟨⟨1, 1⟩, ["// hi"]⟩,
         Decl.syntaxDecl ⟨⟨2, 1⟩, none, none, "proto3"⟩]).lines
      = headerCommentLines false
          [Decl.commentDecl ⟨⟨1, 1⟩, ["// hi"]⟩,
           Decl.syntaxDecl ⟨⟨2, 1⟩, none, none, "proto3"⟩]
        ++ [syntaxLine ⟨⟨2, 1⟩, none, none, "proto3"⟩, ""] :=
  (claim_C6 (fun _ => false) ⟨"  "⟩
      [Decl.commentDecl ⟨⟨1, 1⟩, ["// hi"]⟩,
       Decl.syntaxDecl ⟨⟨2, 1⟩, none, none, "proto3"⟩]
      ⟨⟨2, 1⟩, none, none, "proto3"⟩).2.1 rfl rfl rfl rfl rfl

/-! ### Lemmas for idempotence (C7) -/

theorem headerCommentLines_true (ds : List Decl) :
    headerCommentLines true ds = [] := by
  induction ds with
  | nil => rfl
  | cons d rest ih => cases d <;> simp [headerCommentLines, ih]

theorem headerCommentLines_eq_commentBlock (ds : List Decl) :
    headerCommentLines false ds = commentBlock (headerComments ds) := by
  induction ds with
  | nil => rfl
  | cons d rest ih =>
    cases d <;>
      simp [headerCommentLines, headerComments, commentBlock, ih,
        headerCommentLines_true]

theorem headerCommentLines_map_comments (cs : List CommentDecl)
    (rest : List Decl) :
    headerCommentLines false (cs.map Decl.commentDecl ++ rest)
      = commentBlock cs ++ headerCommentLines false rest := by
  induction cs with
  | nil => simp [commentBlock]
  | cons c cs ih => simp [headerCommentLines, commentBlock, ih]

theorem headerCommentLines_of_nonComment (ds : List Decl)
    (h : ∀ d ∈ ds, d.isComment = false) :
    headerCommentLines false ds = [] := by
  cases ds with
  | nil => rfl
  | cons d rest =>
    have hd := h d (by simp)
    cases d <;> simp [Decl.isComment] at hd <;>
      simp [headerCommentLines, headerCommentLines_true]

theorem filterMap_map_none {α β γ : Type} (f : γ → Option β) (g : α → γ)
    (l : List α) (h : ∀ a, f (g a) = none) :
    (l.map g).filterMap f = [] := by
  induction l with
  | nil => rfl
  | cons a l ih => simp [List.filterMap_cons, h, ih]

theorem filterMap_map_some {β γ : Type} (f : γ → Option β) (g : β → γ)
    (l : List β) (h : ∀ a, f (g a) = some a) :
    (l.map g).filterMap f = l := by
  induction l with
  | nil => rfl
  | cons a l ih => simp [List.filterMap_cons, h, ih]

theorem toList_head? {α : Type} (o : Option α) : o.toList.head? = o := by
  cases o <;> rfl

theorem dupFailures_append_skip (hs hp : Bool) (l rest : List Decl)
    (h : ∀ d ∈ l, d.syntaxDecl? = none ∧ d.packageDecl? = none) :
    dupFailures hs hp (l ++ rest) = dupFailures hs hp rest := by
  induction l with
  | nil => rfl
  | cons d l ih =>
    have hd := h d (by simp)
    have hrest : ∀ d ∈ l, d.syntaxDecl? = none ∧ d.packageDecl? = none :=
      fun d hdl => h d (by simp [hdl])
    cases d with
    | syntaxDecl e => simp [Decl.syntaxDecl?] at hd
    | packageDecl e => simp [Decl.packageDecl?] at hd
    | optionDecl e => simp [dupFailures, ih hrest]
    | importDecl e => simp [dupFailures, ih hrest]
    | commentDecl e => simp [dupFailures, ih hrest]
    | otherDecl k p => simp [dupFailures, ih hrest]

theorem dupFailures_syntaxHead (hp : Bool) (o : Option SyntaxDecl)
    (rest : List Decl) :
    dupFailures false hp (o.toList.map Decl.syntaxDecl ++ rest)
      = dupFailures o.isSome hp rest := by
  cases o <;> simp [dupFailures]

theorem dupFailures_packageHead (hs : Bool) (o : Option PackageDecl)
    (rest : List Decl) :
    dupFailures hs false (o.toList.map Decl.packageDecl ++ rest)
      = dupFailures hs o.isSome rest := by
  cases o <;> simp [dupFailures]

/-- `sortImports` is idempotent: sorting an already-sorted import list
leaves it unchanged. -/
theorem sortImports_idem (l : List ImportDecl) :
    sortImports (sortImports l) = sortImports l :=
  List.mergeSort_of_sorted
    (List.sorted_mergeSort importLe_trans importLe_total l)

theorem sortImports_length (l : List ImportDecl) :
    (sortImports l).length = l.length := by
  simp [sortImports]

theorem importsSection_sortImports (l : List ImportDecl) :
    importsSection (sortImports l) = importsSection l := by
  rw [importsSection, importsSection, importsBody, importsBody,
    sortImports_idem, sortImports_length]

/-- Members of the WKT group satisfy the registry predicate, members of the
regular group do not; so re-filtering the concatenated sorted groups gives
the groups back. -/
theorem filter_sorted_groups (wkt : String → Bool) (l : List ImportDecl) :
    (sortImports (l.filter (fun i => wkt i.filename))
        ++ sortImports (l.filter (fun i => !wkt i.filename))).filter
          (fun i => wkt i.filename)
      = sortImports (l.filter (fun i => wkt i.filename))
  ∧ (sortImports (l.filter (fun i => wkt i.filename))
        ++ sortImports (l.filter (fun i => !wkt i.filename))).filter
          (fun i => !wkt i.filename)
      = sortImports (l.filter (fun i => !wkt i.filename)) := by
  have hw : ∀ i ∈ sortImports (l.filter (fun i => wkt i.filename)),
      wkt i.filename = true := by
    intro i hi
    exact (List.mem_filter.mp ((mem_sortImports i _).mp hi)).2
  have hr : ∀ i ∈ sortImports (l.filter (fun i => !wkt i.filename)),
      wkt i.filename = false := by
    intro i hi
    have := (List.mem_filter.mp ((mem_sortImports i _).mp hi)).2
    simpa using this
  constructor
  · rw [List.filter_append]
    have e1 : (sortImports (l.filter (fun i => wkt i.filename))).filter
        (fun i => wkt i.filename)
        = sortImports (l.filter (fun i => wkt i.filename)) :=
      List.filter_eq_self.mpr hw
    have e2 : (sortImports (l.filter (fun i => !wkt i.filename))).filter
        (fun i => wkt i.filename) = [] :=
      List.filter_eq_nil_iff.mpr (fun i hi => by simp [hr i hi])
    rw [e1, e2, List.append_nil]
  · rw [List.filter_append]
    have e3 : (sortImports (l.filter (fun i => wkt i.filename))).filter
        (fun i => !wkt i.filename) = [] :=
      List.filter_eq_nil_iff.mpr (fun i hi => by simp [hw i hi])
    have e4 : (sortImports (l.filter (fun i => !wkt i.filename))).filter
        (fun i => !wkt i.filename)
        = sortImports (l.filter (fun i => !wkt i.filename)) :=
      List.filter_eq_self.mpr (fun i hi => by simp [hr i hi])
    rw [e3, e4]
    simp

/-- Re-filtering the concatenated option partitions gives the partitions
back. -/
theorem filter_option_groups (l : List OptionDecl) :
    ((l.filter (fun o => !isProbablyCustomOption o)
        ++ l.filter isProbablyCustomOption).filter
          (fun o => !isProbablyCustomOption o)
      = l.filter (fun o => !isProbablyCustomOption o))
  ∧ ((l.filter (fun o => !isProbablyCustomOption o)
        ++ l.filter isProbablyCustomOption).filter isProbablyCustomOption
      = l.filter isProbablyCustomOption) := by
  have hp : ∀ o ∈ l.filter (fun o => !isProbablyCustomOption o),
      isProbablyCustomOption o = false := by
    intro o ho
    have := (List.mem_filter.mp ho).2
    simpa using this
  have hc : ∀ o ∈ l.filter isProbablyCustomOption,
      isProbablyCustomOption o = true :=
    fun o ho => (List.mem_filter.mp ho).2
  constructor
  · rw [List.filter_append]
    have e1 : (l.filter (fun o => !isProbablyCustomOption o)).filter
        (fun o => !isProbablyCustomOption o)
        = l.filter (fun o => !isProbablyCustomOption o) :=
      List.filter_eq_self.mpr (fun o ho => by simp [hp o ho])
    have e2 : (l.filter isProbablyCustomOption).filter
        (fun o => !isProbablyCustomOption o) = [] :=
      List.filter_eq_nil_iff.mpr (fun o ho => by simp [hc o ho])
    rw [e1, e2, List.append_nil]
  · rw [List.filter_append]
    have e3 : (l.filter (fun o => !isProbablyCustomOption o)).filter
        isProbablyCustomOption = [] :=
      List.filter_eq_nil_iff.mpr (fun o ho => by simp [hp o ho])
    have e4 : (l.filter isProbablyCustomOption).filter isProbablyCustomOption
        = l.filter isProbablyCustomOption :=
      List.filter_eq_self.mpr hc
    rw [e3, e4]
    simp

/-- The projections of the canonical document: same header comments, same
retained Syntax and Package, the sorted groups as imports, the partitions
as options. -/
theorem canonicalDecls_projections (wkt : String → Bool) (ds : List Decl) :
    headerCommentLines false (canonicalDecls wkt ds) = headerCommentLines false ds
  ∧ syntaxDecls (canonicalDecls wkt ds) = (syntaxDecls ds).head?.toList
  ∧ packageDecls (canonicalDecls wkt ds) = (packageDecls ds).head?.toList
  ∧ importDecls (canonicalDecls wkt ds)
      = sortImports ((importDecls ds).filter (fun i => wkt i.filename))
        ++ sortImports ((importDecls ds).filter (fun i => !wkt i.filename))
  ∧ optionDecls (canonicalDecls wkt ds)
      = (optionDecls ds).filter (fun o => !isProbablyCustomOption o)
        ++ (optionDecls ds).filter isProbablyCustomOption := by
  refine ⟨?_, ?_, ?_, ?_, ?_⟩
  · rw [canonicalDecls]
    simp only [List.append_assoc]
    rw [headerCommentLines_map_comments, headerCommentLines_of_nonComment,
      headerCommentLines_eq_commentBlock]
    · simp
    · intro d hd
      simp only [List.mem_append, List.mem_map] at hd
      rcases hd with ⟨x, _, rfl⟩ | ⟨x, _, rfl⟩ | ⟨x, _, rfl⟩ | ⟨x, _, rfl⟩ |
        ⟨x, _, rfl⟩ | ⟨x, _, rfl⟩ <;> rfl
  · simp only [canonicalDecls, syntaxDecls, List.filterMap_append]
    rw [filterMap_map_none Decl.syntaxDecl? Decl.commentDecl _ (fun a => rfl),
      filterMap_map_some Decl.syntaxDecl? Decl.syntaxDecl _ (fun a => rfl),
      filterMap_map_none Decl.syntaxDecl? Decl.importDecl _ (fun a => rfl),
      filterMap_map_none Decl.syntaxDecl? Decl.importDecl _ (fun a => rfl),
      filterMap_map_none Decl.syntaxDecl? Decl.packageDecl _ (fun a => rfl),
      filterMap_map_none Decl.syntaxDecl? Decl.optionDecl _ (fun a => rfl),
      filterMap_map_none Decl.syntaxDecl? Decl.optionDecl _ (fun a => rfl)]
    simp
  · simp only [canonicalDecls, packageDecls, List.filterMap_append]
    rw [filterMap_map_none Decl.packageDecl? Decl.commentDecl _ (fun a => rfl),
      filterMap_map_none Decl.packageDecl? Decl.syntaxDecl _ (fun a => rfl),
      filterMap_map_none Decl.packageDecl? Decl.importDecl _ (fun a => rfl),
      filterMap_map_none Decl.packageDecl? Decl.importDecl _ (fun a => rfl),
      filterMap_map_some Decl.packageDecl? Decl.packageDecl _ (fun a => rfl),
      filterMap_map_none Decl.packageDecl? Decl.optionDecl _ (fun a => rfl),
      filterMap_map_none Decl.packageDecl? Decl.optionDecl _ (fun a => rfl)]
    simp
  · simp only [canonicalDecls, importDecls, List.filterMap_append]
    rw [filterMap_map_none Decl.importDecl? Decl.commentDecl _ (fun a => rfl),
      filterMap_map_none Decl.importDecl? Decl.syntaxDecl _ (fun a => rfl),
      filterMap_map_some Decl.importDecl? Decl.importDecl _ (fun a => rfl),
      filterMap_map_some Decl.importDecl? Decl.importDecl _ (fun a => rfl),
      filterMap_map_none Decl.importDecl? Decl.packageDecl _ (fun a => rfl),
      filterMap_map_none Decl.importDecl? Decl.optionDecl _ (fun a => rfl),
      filterMap_map_none Decl.importDecl? Decl.optionDecl _ (fun a => rfl)]
    simp
  · simp only [canonicalDecls, optionDecls, List.filterMap_append]
    rw [filterMap_map_none Decl.optionDecl? Decl.commentDecl _ (fun a => rfl),
      filterMap_map_none Decl.optionDecl? Decl.syntaxDecl _ (fun a => rfl),
      filterMap_map_none Decl.optionDecl? Decl.importDecl _ (fun a => rfl),
      filterMap_map_none Decl.optionDecl? Decl.importDecl _ (fun a => rfl),
      filterMap_map_none Decl.optionDecl? Decl.packageDecl _ (fun a => rfl),
      filterMap_map_some Decl.optionDecl? Decl.optionDecl _ (fun a => rfl),
      filterMap_map_some Decl.optionDecl? Decl.optionDecl _ (fun a => rfl)]
    simp

/-- The canonical document produces no duplicate diagnostics. -/
theorem canonicalDecls_noFailures (wkt : String → Bool) (ds : List Decl) :
    dupFailures false false (canonicalDecls wkt ds) = [] := by
  rw [canonicalDecls]
  simp only [List.append_assoc]
  rw [dupFailures_append_skip _ _ _ _
    (fun d hd => by
      simp only [List.mem_map] at hd
      obtain ⟨x, _, rfl⟩ := hd
      exact ⟨rfl, rfl⟩)]
  rw [dupFailures_syntaxHead]
  rw [dupFailures_append_skip _ _ _ _
    (fun d hd => by
      simp only [List.mem_map] at hd
      obtain ⟨x, _, rfl⟩ := hd
      exact ⟨rfl, rfl⟩)]
  rw [dupFailures_append_skip _ _ _ _
    (fun d hd => by
      simp only [List.mem_map] at hd
      obtain ⟨x, _, rfl⟩ := hd
      exact ⟨rfl, rfl⟩)]
  rw [dupFailures_packageHead]
  rw [dupFailures_append_skip _ _ _ _
    (fun d hd => by
      simp only [List.mem_map] at hd
      obtain ⟨x, _, rfl⟩ := hd
      exact ⟨rfl, rfl⟩)]
  have : ∀ d ∈ ((optionDecls ds).filter isProbablyCustomOption).map Decl.optionDecl,
      d.syntaxDecl? = none ∧ d.packageDecl? = none := by
    intro d hd
    simp only [List.mem_map] at hd
    obtain ⟨x, _, rfl⟩ := hd
    exact ⟨rfl, rfl⟩
  rw [show ((optionDecls ds).filter isProbablyCustomOption).map Decl.optionDecl
      = ((optionDecls ds).filter isProbablyCustomOption).map Decl.optionDecl ++ []
    from (List.append_nil _).symm]
  rw [dupFailures_append_skip _ _ _ _ this]
  rfl

/-- C7: idempotence at the AST level: running the pass on the canonical
document corresponding to its own output yields exactly the same rendered
lines and an empty diagnostics list; and sorting the imports of an
already-sorted import list leaves it unchanged. -/
theorem claim_C7 (wkt : String → Bool) (cfg : Config) (ds : List Decl) :
    (firstPass wkt cfg (canonicalDecls wkt ds)).lines
        = (firstPass wkt cfg ds).lines
  ∧ (firstPass wkt cfg (canonicalDecls wkt ds)).Failures = []
  ∧ (∀ l : List ImportDecl, sortImports (sortImports l) = sortImports l) := by
  obtain ⟨hh, hsy, hpk, him, hop⟩ := canonicalDecls_projections wkt ds
  refine ⟨?_, ?_, sortImports_idem⟩
  · simp only [firstPass_eq]
    rw [hh, hsy, hpk, him, hop, toList_head?, toList_head?]
    rw [(filter_sorted_groups wkt (importDecls ds)).1,
      (filter_sorted_groups wkt (importDecls ds)).2,
      (filter_option_groups (optionDecls ds)).1,
      (filter_option_groups (optionDecls ds)).2,
      importsSection_sortImports, importsSection_sortImports]
  · simp only [firstPass_eq]
    exact canonicalDecls_noFailures wkt ds

/-! ### The configuration resolver, characterized (C9) -/

theorem getFilePathForDir_fst (fs : FileSystem) (dirPath : List String) :
    (getFilePathForDir fs dirPath).1
      = Option.map (fun a => a ++ [DefaultConfigFilename])
          (deepestAncestorWithConfig fs dirPath) := by
  induction dirPath using List.reverseRecOn with
  | nil =>
    by_cases h : fs.hasConfigFile [] <;>
      rw [getFilePathForDir, deepestAncestorWithConfig, ancestorsOf] <;>
      simp [h]
  | append_singleton l a ih =>
    by_cases h : fs.hasConfigFile (l ++ [a])
    · rw [getFilePathForDir, deepestAncestorWithConfig, ancestorsOf]
      simp [h]
    · rw [getFilePathForDir, deepestAncestorWithConfig, ancestorsOf]
      rw [deepestAncestorWithConfig] at ih
      simp [h, List.dropLast_concat, ih]

theorem getFilePathForDir_snd (fs : FileSystem) (dirPath : List String) :
    (getFilePathForDir fs dirPath).2
      = (ancestorsOf dirPath).takeWhile (fun a => !fs.hasConfigFile a)
        ++ (deepestAncestorWithConfig fs dirPath).toList := by
  induction dirPath using List.reverseRecOn with
  | nil =>
    by_cases h : fs.hasConfigFile [] <;>
      rw [getFilePathForDir, deepestAncestorWithConfig, ancestorsOf] <;>
      simp [h, List.takeWhile]
  | append_singleton l a ih =>
    by_cases h : fs.hasConfigFile (l ++ [a])
    · rw [getFilePathForDir, deepestAncestorWithConfig, ancestorsOf]
      simp [h, List.takeWhile]
    · rw [getFilePathForDir, deepestAncestorWithConfig, ancestorsOf]
      rw [deepestAncestorWithConfig] at ih
      simp [h, List.dropLast_concat, List.takeWhile, ih]

/-- C9: the resolver's search walks from the given directory upward one
parent at a time (the directories it visits are exactly the non-config
ancestors in walk order, followed by the hit, if any); the result is the
config file path joined onto the deepest ancestor (the directory itself
included, up to and including the root) containing the default config
filename, or nothing when no such ancestor exists (the provider then
returns the empty string); and the provider's lookup errors iff the given
path is not absolute. -/
theorem claim_C9 (fs : FileSystem) (dirPath : List String) (p : String) :
    (getFilePathForDir fs dirPath).1
        = Option.map (fun a => a ++ [DefaultConfigFilename])
            (deepestAncestorWithConfig fs dirPath)
  ∧ (getFilePathForDir fs dirPath).2
        = (ancestorsOf dirPath).takeWhile (fun a => !fs.hasConfigFile a)
          ++ (deepestAncestorWithConfig fs dirPath).toList
  ∧ ((∃ msg, GetFilePathForDir fs p = Except.error msg) ↔ isAbs p = false)
  ∧ (isAbs p = true →
      GetFilePathForDir fs p
        = Except.ok
            (match deepestAncestorWithConfig fs (cleanComponents p) with
             | none => ""
             | some a => renderPath (a ++ [DefaultConfigFilename]))) := by
  refine ⟨getFilePathForDir_fst fs dirPath, getFilePathForDir_snd fs dirPath,
    ?_, ?_⟩
  · by_cases h : isAbs p
    · rw [GetFilePathForDir]
      simp only [h, Bool.not_true, Bool.false_eq_true, if_false]
      cases hm : (getFilePathForDir fs (cleanComponents p)).1 <;> simp [h]
    · rw [GetFilePathForDir]
      simp only [Bool.not_eq_true] at h
      simp [h]
  · intro h
    rw [GetFilePathForDir]
    simp only [h, Bool.not_true, Bool.false_eq_true, if_false]
    rw [getFilePathForDir_fst]
    cases hm : deepestAncestorWithConfig fs (cleanComponents p) <;> simp

/-- Witness for C9 at a concrete input: with the config file present only
in `/home`, looking up `/home/user` finds `/home/prototool.yaml`, and the
relative path `home/user` is rejected. -/
theorem claim_C9_witness :
    (isAbs "/home/user" = true
      ∧ GetFilePathForDir ⟨fun d => d == ["home"]⟩ "/home/user"
          = Except.ok
              (match deepestAncestorWithConfig ⟨fun d => d == ["home"]⟩
                  (cleanComponents "/home/user") with
               | none => ""
               | some a => renderPath (a ++ [DefaultConfigFilename])))
  ∧ ((∃ msg, GetFilePathForDir ⟨fun d => d == ["home"]⟩ "home/user"
        = Except.error msg) ↔ isAbs "home/user" = false) := by
  refine ⟨⟨by decide, ?_⟩, ?_⟩
  · exact (claim_C9 ⟨fun d => d == ["home"]⟩ [] "/home/user").2.2.2 (by decide)
  · exact (claim_C9 ⟨fun d => d == ["home"]⟩ [] "home/user").2.2.1

end Prototool
